import Mathlib

/-!
Verification of the bash-tool repository's core logic against its
natural-language specification.

The TypeScript sources are shallowly embedded: JavaScript strings are
modelled as `List Char` (called `JStr`), buffers as `List Nat` (byte
lists), fallible operations as `Option`/`Except`, and the file-system /
glob enumeration that external libraries perform is passed in as explicit
lists.  Every definition mirrors one function of the repository; the
source file and symbol are named in each doc comment.
-/

/-- JavaScript strings are modelled as lists of characters. -/
abbrev JStr := List Char

/-- Split a character list at every occurrence of the separator `sep`,
modelling JavaScript `String.prototype.split` with a single-character
separator (`"x".split(s)` always yields at least one element). -/
def splitOnChar (sep : Char) : JStr → List JStr
  | [] => [[]]
  | c :: rest =>
    if c = sep then [] :: splitOnChar sep rest
    else
      match splitOnChar sep rest with
      | [] => [[c]]
      | l :: ls => (c :: l) :: ls

/-- Join a list of character lists with the separator `sep`, modelling
JavaScript `Array.prototype.join` with a single-character separator. -/
def joinChar (sep : Char) : List JStr → JStr
  | [] => []
  | [l] => l
  | l :: rest => l ++ sep :: joinChar sep rest

/-- Split on newline, as `content.split("\n")` in `bash.ts`. -/
def splitNl : JStr → List JStr := splitOnChar '\n' 

/-- Join with newline, as `lines.join("\n")` in `bash.ts`. -/
def joinNl : List JStr → JStr := joinChar '\n' 

/-! ## Path Resolver (`src/utils/posix-path.ts`, provided as `unnamed/part_014`) -/

/-- Embeds `normalizePosixPath`: filter out empty and `.` segments, then
fold, popping the previous segment on `..` (keeping `..` only on relative
paths), and re-join; absolute paths keep their leading slash and an empty
relative result becomes `.`. -/
def normalizePosixPath (p : JStr) : JStr :=
  let isAbsolute : Bool := p.head? = some '/'
  let segments := (splitOnChar '/' p).filter (fun s => s ≠ [] ∧ s ≠ ['.'])
  let result := segments.foldl
    (fun res seg =>
      if seg = ['.', '.'] then
        if res ≠ [] ∧ res.getLast? ≠ some ['.', '.'] then res.dropLast
        else if ¬ isAbsolute then res ++ [seg]
        else res
      else res ++ [seg])
    ([] : List JStr)
  let normalized := joinChar '/' result
  if isAbsolute then '/' :: normalized
  else if normalized = [] then ['.'] else normalized

/-- Embeds `posixResolve`: an absolute path ignores the base and is
normalized; a relative path is appended to the base with a slash and
normalized. -/
def posixResolve (base relativePath : JStr) : JStr :=
  if relativePath.head? = some '/' then normalizePosixPath relativePath
  else normalizePosixPath (base ++ '/' :: relativePath)

/-- Embeds `posixJoin`: drop falsy (empty) segments, join with `/`,
normalize. -/
def posixJoin (segments : List JStr) : JStr :=
  normalizePosixPath (joinChar '/' (segments.filter (fun s => s ≠ [])))

/-! ## Decimal numerals

JavaScript number-to-string interpolation (`` `${n}` ``) and
`Number.parseInt(s, 10)` are modelled by a structural (fuel-based)
decimal printer and a leading-digits parser. -/

/-- Little-endian decimal digits of `n`; `fuel ≥ n` guarantees the fuel
is never exhausted (the digit count of `n` is at most `n` for `n ≥ 1`). -/
def natDigitsRev (fuel : Nat) (n : Nat) : List Nat :=
  match fuel with
  | 0 => []
  | fuel + 1 => if n = 0 then [] else n % 10 :: natDigitsRev fuel (n / 10)

/-- Decimal character string of a natural number, most significant digit
first; models JavaScript integer-to-string conversion for `n ≥ 0`. -/
def natToStrChars (n : Nat) : JStr :=
  if n = 0 then ['0'] else ((natDigitsRev n n).map Nat.digitChar).reverse

/-- Decimal character string of an integer (a leading `-` for negative
values); models JavaScript template interpolation of an integral number. -/
def intToStr (n : Int) : JStr :=
  if n < 0 then '-' :: natToStrChars n.natAbs else natToStrChars n.toNat

/-- Numeric value of a decimal digit character (`'0'`–`'9'`). -/
def charToDigit (c : Char) : Nat := c.toNat - '0'.toNat

/-- Parse the leading run of decimal digits, modelling the digit-consuming
core of `Number.parseInt(s, 10)`; `none` models the `NaN` result when no
digit is present. -/
def parseLeadingNat (s : JStr) : Option Nat :=
  let ds := s.takeWhile Char.isDigit
  if ds = [] then none
  else some (ds.foldl (fun a c => 10 * a + charToDigit c) 0)

/-- Models `Number.parseInt(s, 10)`: skip leading whitespace, accept an
optional sign, then read the leading decimal digits; `none` models `NaN`. -/
def parseIntJS (s : JStr) : Option Int :=
  let s1 := s.dropWhile (fun c => c = ' ' ∨ c = '\t' ∨ c = '\n' ∨ c = '\r')
  match s1 with
  | [] => none
  | c :: rest =>
    if c = '-' then (parseLeadingNat rest).map (fun n => -(n : Int))
    else if c = '+' then (parseLeadingNat rest).map (fun n => (n : Int))
    else (parseLeadingNat (c :: rest)).map (fun n => (n : Int))

/-! ## Invocation Log Codec (`src/tools/bash.ts`) -/

/-- The `InvocationLog` interface of `bash.ts`.  The optional
`outputFilter` field is `none` when absent. -/
structure InvocationLog where
  timestamp : JStr
  command : JStr
  exitCode : Int
  stdout : JStr
  stderr : JStr
  outputFilter : Option JStr
deriving DecidableEq, Repr

/-- The `---STDOUT---` marker line. -/
def mStdout : JStr := "---STDOUT---".toList

/-- The `---STDERR---` marker line. -/
def mStderr : JStr := "---STDERR---".toList

/-- Embeds `formatInvocationLog`: three fixed header lines, an
`outputFilter` header only when the field is truthy (present and
nonempty), the two marker lines around the raw stdout and stderr, all
joined with newlines. -/
def formatInvocationLog (log : InvocationLog) : JStr :=
  let headers : List JStr :=
    [("# timestamp: ".toList) ++ log.timestamp,
     ("# command: ".toList) ++ log.command,
     ("# exitCode: ".toList) ++ intToStr log.exitCode]
  let filterLines : List JStr :=
    match log.outputFilter with
    | some f => if f = [] then [] else [("# outputFilter: ".toList) ++ f]
    | none => []
  joinNl (headers ++ filterLines ++ [mStdout, log.stdout, mStderr, log.stderr])

/-- A word character of the JavaScript regular-expression class `\w`,
namely `[A-Za-z0-9_]` (the pattern is not Unicode-aware). -/
def isWordChar (c : Char) : Bool :=
  ('A' ≤ c ∧ c ≤ 'Z') ∨ ('a' ≤ c ∧ c ≤ 'z') ∨ ('0' ≤ c ∧ c ≤ '9') ∨ c = '_'

/-- A character the JavaScript `.` pattern matches: anything but a line
terminator (`\n`, `\r`, U+2028, U+2029). -/
def isDotChar (c : Char) : Bool :=
  c ≠ '\n' ∧ c ≠ '\r' ∧ c ≠ Char.ofNat 0x2028 ∧ c ≠ Char.ofNat 0x2029

/-- Models matching one header line against `/^# (\w+): (.*)$/` (after the
`startsWith("# ")` guard of `parseInvocationLog`): the key is the maximal
nonempty run of word characters after `"# "`, it must be followed by
`": "`, and the remainder must consist of `.`-matchable characters. -/
def matchHeader (line : JStr) : Option (JStr × JStr) :=
  match line with
  | '#' :: ' ' :: rest =>
    let key := rest.takeWhile isWordChar
    let afterKey := rest.drop key.length
    match afterKey with
    | ':' :: ' ' :: value =>
      if key ≠ [] ∧ value.all isDotChar then some (key, value) else none
    | _ => none
  | _ => none

/-- Accumulator state of the `parseInvocationLog` loop: the log built so
far, the current section (0 = header, 1 = stdout, 2 = stderr), the
accumulated stdout/stderr lines, and the two section-seen flags. -/
structure ParseAcc where
  log : InvocationLog
  sect : Nat
  stdoutLines : List JStr
  stderrLines : List JStr
  hasStdout : Bool
  hasStderr : Bool
deriving Repr

/-- The initial parse state of `parseInvocationLog` (`exitCode`
initialized to 0, no `outputFilter`). -/
def initAcc : ParseAcc :=
  { log := ⟨[], [], 0, [], [], none⟩
    sect := 0
    stdoutLines := []
    stderrLines := []
    hasStdout := false
    hasStderr := false }

/-- Apply one matched header `key: value` to the log under construction,
as the key-dispatch in `parseInvocationLog`.  `Number.parseInt` returning
`NaN` (impossible for encoder output, whose value is always a decimal
numeral) is modelled by leaving the initial `0`. -/
def applyHeader (log : InvocationLog) (key value : JStr) : InvocationLog :=
  if key = ("timestamp".toList) then { log with timestamp := value }
  else if key = ("command".toList) then { log with command := value }
  else if key = ("exitCode".toList) then
    { log with exitCode := (parseIntJS value).getD 0 }
  else if key = ("outputFilter".toList) then { log with outputFilter := some value }
  else log

/-- One iteration of the `for (const line of lines)` loop of
`parseInvocationLog`: marker lines switch sections and set the seen
flags; header lines are matched against the header pattern; other lines
are appended to the current section's accumulator (and dropped in the
header section). -/
def parseLine (acc : ParseAcc) (line : JStr) : ParseAcc :=
  if line = mStdout then { acc with sect := 1, hasStdout := true }
  else if line = mStderr then { acc with sect := 2, hasStderr := true }
  else if acc.sect = 0 then
    match matchHeader line with
    | some kv => { acc with log := applyHeader acc.log kv.1 kv.2 }
    | none => acc
  else if acc.sect = 1 then { acc with stdoutLines := acc.stdoutLines ++ [line] }
  else { acc with stderrLines := acc.stderrLines ++ [line] }

/-- Embeds `parseInvocationLog`: split the content on newlines, run the
line loop, fail (`none`, modelling the thrown `Error`) unless both
markers were seen, and rejoin the accumulated stdout/stderr lines. -/
def parseInvocationLog (content : JStr) : Option InvocationLog :=
  let acc := (splitNl content).foldl parseLine initAcc
  if acc.hasStdout ∧ acc.hasStderr then
    some { acc.log with
           stdout := joinNl acc.stdoutLines
           stderr := joinNl acc.stderrLines }
  else none

/-! ## Output truncation (`src/tools/bash.ts`, `truncateOutput`) -/

/-- The `streamName` parameter of `truncateOutput` (a two-value string
union in the source). -/
inductive StreamName where
  | stdout
  | stderr
deriving DecidableEq, Repr

/-- The literal text of a stream name. -/
def StreamName.text : StreamName → JStr
  | .stdout => "stdout".toList
  | .stderr => "stderr".toList

/-- Embeds `truncateOutput`: output within the limit is returned
unchanged; otherwise the head up to `maxLength` is kept and a notice
naming the stream and the number of characters removed is appended. -/
def truncateOutput (output : JStr) (maxLength : Nat) (streamName : StreamName) : JStr :=
  if output.length ≤ maxLength then output
  else
    output.take maxLength
      ++ ("\n\n[".toList) ++ streamName.text ++ (" truncated: ".toList)
      ++ natToStrChars (output.length - maxLength)
      ++ (" characters removed]".toList)

/-- The default `maxOutputLength` (`DEFAULT_MAX_OUTPUT_LENGTH`). -/
def defaultMaxOutputLength : Nat := 30000

/-! ## Command Execution Pipeline (`src/tools/bash.ts`) -/

/-- The single-quote character (written by code point to keep source
quoting unambiguous). -/
def sqc : Char := Char.ofNat 39

/-- Embeds `command.replace(/'/g, "'\\''")` of `executeWithFilter`: every
single quote becomes quote, backslash, quote, quote. -/
def escapeSingleQuotes (s : JStr) : JStr :=
  s.flatMap (fun c => if c = sqc then [sqc, '\\', sqc, sqc] else [c])

/-- Embeds `timestamp.replace(/[:.]/g, "-")`: the temp-file identifier
derived from the ISO timestamp. -/
def tempIdOf (timestamp : JStr) : JStr :=
  timestamp.map (fun c => if c = ':' ∨ c = '.' then '-' else c)

/-- The temp file capturing stdout in `executeWithFilter`. -/
def tmpStdoutPath (timestamp : JStr) : JStr :=
  ("/tmp/bash-tool-stdout-".toList) ++ tempIdOf timestamp

/-- The temp file capturing stderr in `executeWithFilter`. -/
def tmpStderrPath (timestamp : JStr) : JStr :=
  ("/tmp/bash-tool-stderr-".toList) ++ tempIdOf timestamp

/-- Embeds the direct-execution command of `createBashExecuteTool` (the
no-filter branch): `cd "<cwd>" && <command>`. -/
def fullCommand (cwd command : JStr) : JStr :=
  ("cd \"".toList) ++ cwd ++ ("\" && ".toList) ++ command

/-- The invocation-log block appended to the filter script when logging
is enabled, transcribed from `executeWithFilter` (heredoc for the static
headers, `echo`/`cat` appends for the dynamic parts). -/
def filterScriptLogBlock (timestamp command filter logDir logPath tmpOut tmpErr : JStr) : JStr :=
  ("\n# Write invocation log\nmkdir -p \"".toList) ++ logDir
    ++ ("\"\ncat > \"".toList) ++ logPath ++ ("\" << ".toList)
    ++ [sqc] ++ ("INVOCATION_HEADER".toList) ++ [sqc]
    ++ ("\n# timestamp: ".toList) ++ timestamp
    ++ ("\n# command: ".toList) ++ escapeSingleQuotes command
    ++ ("\nINVOCATION_HEADER\necho \"# exitCode: $cmd_exit\" >> \"".toList) ++ logPath
    ++ ("\"\necho \"# outputFilter: ".toList) ++ escapeSingleQuotes filter
    ++ ("\" >> \"".toList) ++ logPath
    ++ ("\"\necho \"---STDOUT---\" >> \"".toList) ++ logPath
    ++ ("\"\ncat \"".toList) ++ tmpOut ++ ("\" >> \"".toList) ++ logPath
    ++ ("\"\necho \"---STDERR---\" >> \"".toList) ++ logPath
    ++ ("\"\ncat \"".toList) ++ tmpErr ++ ("\" >> \"".toList) ++ logPath
    ++ ("\"\n".toList)

/-- Embeds the combined shell script built by `executeWithFilter`: run the
command under `cd` into `cwd` capturing both streams to temp files, record
the exit code, optionally write the invocation log, pipe the captured
stdout through the filter, re-emit stderr, clean up, and exit with the
filter's exit code when it failed, otherwise the command's. -/
def filterScript (cwd command filter : JStr) (invocationLog : Option (JStr × JStr))
    (timestamp : JStr) : JStr :=
  let tmpOut := tmpStdoutPath timestamp
  let tmpErr := tmpStderrPath timestamp
  ("\n# Run command and capture output\ncd \"".toList) ++ cwd ++ ("\" && ".toList)
    ++ command
    ++ (" > \"".toList) ++ tmpOut ++ ("\" 2> \"".toList) ++ tmpErr
    ++ ("\"\ncmd_exit=$?\n".toList)
    ++ (match invocationLog with
        | some logInfo =>
          filterScriptLogBlock timestamp command filter logInfo.1 logInfo.2 tmpOut tmpErr
        | none => [])
    ++ ("\n# Output filtered stdout\ncat \"".toList) ++ tmpOut ++ ("\" | ".toList)
    ++ filter
    ++ ("\nfilter_exit=$?\n\n# Output original stderr to stderr\ncat \"".toList)
    ++ tmpErr
    ++ ("\" >&2\n\n# Clean up\nrm -f \"".toList) ++ tmpOut ++ ("\" \"".toList) ++ tmpErr
    ++ ("\"\n\n# Exit with filter exit code if filter failed, otherwise original exit code\nif [ $filter_exit -ne 0 ]; then\n  exit $filter_exit\nfi\nexit $cmd_exit\n".toList)

/-- The effective text handed to `sandbox.executeCommand` by the bash
tool's `execute`: the `cd`-prefixed command when no output filter is
requested, the generated filter script otherwise. -/
def effectiveCommand (cwd command : JStr) (outputFilter : Option JStr)
    (invocationLog : Option (JStr × JStr)) (timestamp : JStr) : JStr :=
  match outputFilter with
  | none => fullCommand cwd command
  | some filter => filterScript cwd command filter invocationLog timestamp

/-! ## File Ingestion (`src/files/loader.ts`)

The inline file map is modelled as an association list in enumeration
order (JavaScript object keys are unique); the directory scan that
`fast-glob` performs is modelled as the list of (relative path, content)
pairs it finds, in order. -/

/-- Embeds `streamFiles`: yield every inline entry first (recording its
path), then every directory entry whose path was not already yielded. -/
def streamFilesModel (inlineFiles dirFiles : List (JStr × JStr)) : List (JStr × JStr) :=
  inlineFiles ++ dirFiles.filter (fun e => ! inlineFiles.any (fun i => i.1 = e.1))

/-- Embeds `getFilePaths`: push every directory path, then append each
inline key that the accumulated array does not already include. -/
def getFilePathsModel (inlineFiles dirFiles : List (JStr × JStr)) : List JStr :=
  (inlineFiles.map Prod.fst).foldl
    (fun acc k => if k ∈ acc then acc else acc ++ [k])
    (dirFiles.map Prod.fst)

/-! ## Toolkit Orchestrator upload phase

The `createBashTool` revision enforcing `maxFiles` and batched writes is
not among the provided sources: only its tests
(`src/tool.test.ts`, "maxFiles limit" and "writes files in batches of 20")
and the `maxFiles` option declaration in `types.ts` are present, so the
upload phase is modelled from the spec. -/

/-- Modelled from the spec: the default `maxFiles` of the Orchestrator
("configurable maximum file count (default 1000; zero disables the
check)"); the implementation is missing from the provided sources. -/
def defaultMaxFiles : Nat := 1000

/-- Fuel-driven chunking; the fuel (instantiated with the list length)
makes the recursion structural. -/
def toBatchesAux {α : Type} (fuel : Nat) (xs : List α) : List (List α) :=
  match fuel with
  | 0 => if xs.isEmpty then [] else [xs]
  | fuel + 1 =>
    if xs.isEmpty then [] else xs.take 20 :: toBatchesAux fuel (xs.drop 20)

/-- Modelled from the spec: chunking of sandbox writes into fixed-size
batches of 20 ("Writes to the Sandbox are chunked into fixed-size batches
(batch size 20)"); the implementing code is missing from the provided
sources (its test is `writes files in batches of 20 to custom sandbox`). -/
def toBatches20 {α : Type} (xs : List α) : List (List α) :=
  toBatchesAux xs.length xs

/-- Modelled from the spec: the upload phase of `createBashTool` — "the
Orchestrator enforces a configurable maximum file count (default 1000;
zero disables the check) and fails fast — before any write begins — with
an error naming the actual count, the limit, and remediation guidance";
the implementing code is missing from the provided sources (its tests pin
the message wording).  The result is the list of `writeFiles` batches on
success, and the error text (with no batch ever produced) on failure. -/
def uploadPlan (files : List (JStr × JStr)) (maxFiles : Nat) :
    Except JStr (List (List (JStr × JStr))) :=
  if maxFiles ≠ 0 ∧ files.length > maxFiles then
    .error (("Too many files to upload: ".toList) ++ natToStrChars files.length
      ++ (" files exceeds the limit of ".toList) ++ natToStrChars maxFiles
      ++ (". Either increase maxFiles, use a more restrictive include pattern, or upload the files yourself using your own sandbox.".toList))
  else .ok (toBatches20 files)

/-! ## Sandbox Adapters (`src/sandbox/vercel.ts` and `src/sandbox/just-bash.ts`,
provided as `unnamed/part_003`) -/

/-- Embeds `streamToString`: drain all chunks of a byte stream and
concatenate (chunks modelled at text level). -/
def streamToString (chunks : List JStr) : JStr := chunks.flatten

/-- Embeds `wrapVercelSandbox.readFile`: the backend's `readFile` yields
either `null` (modelled `none`) or a stream of chunks; `null` raises the
typed `File not found` error, otherwise the fully drained content is
returned. -/
def wrapVercelReadFile (backendRead : JStr → Option (List JStr)) (filePath : JStr) :
    Except JStr JStr :=
  match backendRead filePath with
  | none => .error (("File not found: ".toList) ++ filePath)
  | some chunks => .ok (streamToString chunks)

/-- A `string | Buffer` write payload of `Sandbox.writeFiles`. -/
inductive ContentV where
  | str (s : JStr)
  | buf (b : List Nat)
deriving DecidableEq, Repr

/-- The Unicode replacement character U+FFFD. -/
def repChar : Char := Char.ofNat 0xFFFD

/-- UTF-8 encoding of one code point (models `Buffer.from(string)`
per-character). -/
def utf8EncodeChar (c : Char) : List Nat :=
  let n := c.toNat
  if n ≤ 0x7F then [n]
  else if n ≤ 0x7FF then [0xC0 + n / 64, 0x80 + n % 64]
  else if n ≤ 0xFFFF then [0xE0 + n / 4096, 0x80 + n / 64 % 64, 0x80 + n % 64]
  else [0xF0 + n / 262144, 0x80 + n / 4096 % 64, 0x80 + n / 64 % 64, 0x80 + n % 64]

/-- UTF-8 encoding of a string, modelling `Buffer.from(s)` (Node's
default utf-8 encoding). -/
def utf8Encode (s : JStr) : List Nat := s.flatMap utf8EncodeChar

/-- Fuel-driven UTF-8 decoding step; every step consumes at least one
byte and emits one character, so fuel equal to the byte count (supplied
by `utf8Decode`) is never exhausted.  Well-formed sequences decode to
their code point; ill-formed bytes become U+FFFD, invalid continuations
resuming at the offending byte. -/
def utf8DecodeAux (fuel : Nat) (bytes : List Nat) : JStr :=
  match fuel with
  | 0 => []
  | fuel + 1 =>
    match bytes with
    | [] => []
    | b :: rest =>
      if b ≤ 0x7F then Char.ofNat b :: utf8DecodeAux fuel rest
      else if 0xC2 ≤ b ∧ b ≤ 0xDF then
        match rest with
        | [] => [repChar]
        | c :: rest2 =>
          if 0x80 ≤ c ∧ c ≤ 0xBF then
            Char.ofNat ((b - 0xC0) * 64 + (c - 0x80)) :: utf8DecodeAux fuel rest2
          else repChar :: utf8DecodeAux fuel (c :: rest2)
      else if 0xE0 ≤ b ∧ b ≤ 0xEF then
        match rest with
        | [] => [repChar]
        | c :: rest2 =>
          if (if b = 0xE0 then 0xA0 else 0x80) ≤ c ∧ c ≤ (if b = 0xED then 0x9F else 0xBF) then
            match rest2 with
            | [] => [repChar]
            | d :: rest3 =>
              if 0x80 ≤ d ∧ d ≤ 0xBF then
                Char.ofNat ((b - 0xE0) * 4096 + (c - 0x80) * 64 + (d - 0x80))
                  :: utf8DecodeAux fuel rest3
              else repChar :: utf8DecodeAux fuel (d :: rest3)
          else repChar :: utf8DecodeAux fuel (c :: rest2)
      else if 0xF0 ≤ b ∧ b ≤ 0xF4 then
        match rest with
        | [] => [repChar]
        | c :: rest2 =>
          if (if b = 0xF0 then 0x90 else 0x80) ≤ c ∧ c ≤ (if b = 0xF4 then 0x8F else 0xBF) then
            match rest2 with
            | [] => [repChar]
            | d :: rest3 =>
              if 0x80 ≤ d ∧ d ≤ 0xBF then
                match rest3 with
                | [] => [repChar]
                | e :: rest4 =>
                  if 0x80 ≤ e ∧ e ≤ 0xBF then
                    Char.ofNat ((b - 0xF0) * 262144 + (c - 0x80) * 4096
                        + (d - 0x80) * 64 + (e - 0x80))
                      :: utf8DecodeAux fuel rest4
                  else repChar :: utf8DecodeAux fuel (e :: rest4)
              else repChar :: utf8DecodeAux fuel (d :: rest3)
          else repChar :: utf8DecodeAux fuel (c :: rest2)
      else repChar :: utf8DecodeAux fuel rest

/-- UTF-8 decoding of a byte list, modelling Node's
`buffer.toString("utf-8")`. -/
def utf8Decode (bytes : List Nat) : JStr := utf8DecodeAux bytes.length bytes

/-- Embeds the per-file content conversion of the just-bash adapters'
`writeFiles` (both `createJustBashSandbox` and `wrapJustBash`):
`typeof content === "string" ? content : content.toString("utf-8")`. -/
def justBashWriteContent : ContentV → JStr
  | .str s => s
  | .buf b => utf8Decode b

/-- Embeds the per-file content conversion of `wrapVercelSandbox.writeFiles`:
`Buffer.isBuffer(content) ? content : Buffer.from(content)`. -/
def vercelWriteContent : ContentV → List Nat
  | .str s => utf8Encode s
  | .buf b => b

/-- The contents stored by the just-bash adapters' `writeFiles` loop. -/
def justBashWriteFiles (files : List (JStr × ContentV)) : List (JStr × JStr) :=
  files.map (fun f => (f.1, justBashWriteContent f.2))

/-- The contents handed to the backend by `wrapVercelSandbox.writeFiles`. -/
def vercelWriteFiles (files : List (JStr × ContentV)) : List (JStr × List Nat) :=
  files.map (fun f => (f.1, vercelWriteContent f.2))

/-! # Theorems -/

/-! ## Generic list and split/join lemmas -/

theorem splitOnChar_ne_nil (sep : Char) (s : JStr) : splitOnChar sep s ≠ [] := by
  induction s with
  | nil => simp [splitOnChar]
  | cons c rest ih =>
    by_cases h : c = sep
    · simp [splitOnChar, h]
    · simp only [splitOnChar, if_neg h]
      cases hs : splitOnChar sep rest with
      | nil => exact absurd hs ih
      | cons l ls => simp

theorem splitOnChar_cons_pos (sep : Char) (s : JStr) :
    splitOnChar sep (sep :: s) = [] :: splitOnChar sep s := by
  simp [splitOnChar]

theorem splitOnChar_cons_neg (sep c : Char) (s : JStr) (h : c ≠ sep) :
    splitOnChar sep (c :: s) =
      match splitOnChar sep s with
      | [] => [[c]]
      | l :: ls => (c :: l) :: ls := by
  simp [splitOnChar, h]

theorem splitOnChar_append_sep (sep : Char) (a b : JStr) :
    splitOnChar sep (a ++ sep :: b) = splitOnChar sep a ++ splitOnChar sep b := by
  induction a with
  | nil => simp [splitOnChar]
  | cons c a ih =>
    by_cases h : c = sep
    · subst h
      rw [List.cons_append, splitOnChar_cons_pos, splitOnChar_cons_pos, ih,
          List.cons_append]
    · cases hs : splitOnChar sep a with
      | nil => exact absurd hs (splitOnChar_ne_nil sep a)
      | cons l ls =>
        rw [List.cons_append, splitOnChar_cons_neg sep c _ h,
            splitOnChar_cons_neg sep c _ h, ih, hs, List.cons_append]
        rfl

theorem splitOnChar_eq_single (sep : Char) (a : JStr) (h : ∀ c ∈ a, c ≠ sep) :
    splitOnChar sep a = [a] := by
  induction a with
  | nil => rfl
  | cons c a ih =>
    have hc : c ≠ sep := h c (by simp)
    simp only [splitOnChar, if_neg hc, ih (fun x hx => h x (by simp [hx]))]

theorem joinChar_cons_of_ne_nil (sep : Char) (l : JStr) (rest : List JStr)
    (h : rest ≠ []) : joinChar sep (l :: rest) = l ++ sep :: joinChar sep rest := by
  cases rest with
  | nil => exact absurd rfl h
  | cons x xs => rfl

theorem joinChar_splitOnChar (sep : Char) (s : JStr) :
    joinChar sep (splitOnChar sep s) = s := by
  induction s with
  | nil => rfl
  | cons c s ih =>
    by_cases h : c = sep
    · subst h
      rw [splitOnChar_cons_pos,
          joinChar_cons_of_ne_nil c [] _ (splitOnChar_ne_nil c s), ih,
          List.nil_append]
    · cases hs : splitOnChar sep s with
      | nil => exact absurd hs (splitOnChar_ne_nil sep s)
      | cons l ls =>
        rw [hs] at ih
        rw [splitOnChar_cons_neg sep c s h, hs]
        cases ls with
        | nil =>
          show joinChar sep [c :: l] = c :: s
          rw [show joinChar sep [c :: l] = c :: l from rfl]
          rw [show joinChar sep [l] = l from rfl] at ih
          rw [ih]
        | cons y ys =>
          show joinChar sep ((c :: l) :: y :: ys) = c :: s
          rw [joinChar_cons_of_ne_nil sep (c :: l) (y :: ys) (by simp)]
          rw [joinChar_cons_of_ne_nil sep l (y :: ys) (by simp)] at ih
          rw [List.cons_append, ih]

/-! ## C1: working-directory injection -/

/-- C1: For every command executed by the bash tool, the effective text
handed to the Sandbox's `executeCommand` is prefixed with a change of
directory into the configured `cwd`: without an output filter the command
is exactly `cd "<cwd>" && <command>`, and with an output filter the
generated script begins (after its leading comment line) with
`cd "<cwd>" && <command>`, with or without an invocation log. -/
theorem C1_directory_injection (cwd command filter timestamp : JStr)
    (invocationLog : Option (JStr × JStr)) :
    effectiveCommand cwd command none invocationLog timestamp
      = ("cd \"".toList) ++ cwd ++ ("\" && ".toList) ++ command
    ∧ ∃ post,
        effectiveCommand cwd command (some filter) invocationLog timestamp
          = ("\n# Run command and capture output\ncd \"".toList)
            ++ cwd ++ ("\" && ".toList) ++ command ++ post := by
  refine ⟨rfl, ?_⟩
  refine ⟨(" > \"".toList) ++ tmpStdoutPath timestamp ++ ("\" 2> \"".toList)
      ++ tmpStderrPath timestamp ++ ("\"\ncmd_exit=$?\n".toList)
      ++ (match invocationLog with
          | some logInfo =>
            filterScriptLogBlock timestamp command filter logInfo.1 logInfo.2
              (tmpStdoutPath timestamp) (tmpStderrPath timestamp)
          | none => [])
      ++ ("\n# Output filtered stdout\ncat \"".toList) ++ tmpStdoutPath timestamp
      ++ ("\" | ".toList) ++ filter
      ++ ("\nfilter_exit=$?\n\n# Output original stderr to stderr\ncat \"".toList)
      ++ tmpStderrPath timestamp
      ++ ("\" >&2\n\n# Clean up\nrm -f \"".toList) ++ tmpStdoutPath timestamp
      ++ ("\" \"".toList) ++ tmpStderrPath timestamp
      ++ ("\"\n\n# Exit with filter exit code if filter failed, otherwise original exit code\nif [ $filter_exit -ne 0 ]; then\n  exit $filter_exit\nfi\nexit $cmd_exit\n".toList), ?_⟩
  simp only [effectiveCommand, filterScript, List.append_assoc]

/-! ## C7: output truncation -/

/-- C7: `truncateOutput` leaves any string whose length is at most the
maximum unchanged, and rewrites any longer string to its head up to the
limit followed by a notice naming the stream and the number of characters
removed; an output of exactly the limit length is never modified and an
output one character over is always modified. -/
theorem C7_truncation (output : JStr) (maxLength : Nat) (streamName : StreamName) :
    (output.length ≤ maxLength → truncateOutput output maxLength streamName = output)
    ∧ (maxLength < output.length →
        truncateOutput output maxLength streamName
          = output.take maxLength
            ++ ("\n\n[".toList) ++ streamName.text ++ (" truncated: ".toList)
            ++ natToStrChars (output.length - maxLength)
            ++ (" characters removed]".toList))
    ∧ (output.length = maxLength → truncateOutput output maxLength streamName = output)
    ∧ (output.length = maxLength + 1 →
        truncateOutput output maxLength streamName ≠ output) := by
  refine ⟨fun h => by rw [truncateOutput, if_pos h],
          fun h => by rw [truncateOutput, if_neg (by omega)],
          fun h => by rw [truncateOutput, if_pos (by omega)],
          fun h heq => ?_⟩
  rw [truncateOutput, if_neg (by omega)] at heq
  have h1 : output.length - maxLength = 1 := by omega
  rw [h1, show natToStrChars 1 = ['1'] from rfl] at heq
  have hlen := congrArg List.length heq
  simp only [List.length_append, List.length_take, List.length_cons,
    List.length_nil] at hlen
  have ht : streamName.text.length = 6 := by cases streamName <;> rfl
  have e1 : ("\n\n[".toList).length = 3 := rfl
  have e2 : (" truncated: ".toList).length = 12 := rfl
  have e3 : (" characters removed]".toList).length = 20 := rfl
  omega

/-- Witness for C7 at concrete inputs: a three-character output with
limit 3 is unchanged, a four-character output with limit 3 is modified. -/
theorem C7_truncation_witness :
    truncateOutput ("abc".toList) 3 StreamName.stdout = ("abc".toList)
    ∧ truncateOutput ("abcd".toList) 3 StreamName.stdout ≠ ("abcd".toList) :=
  ⟨(C7_truncation ("abc".toList) 3 StreamName.stdout).1 (by decide),
   (C7_truncation ("abcd".toList) 3 StreamName.stdout).2.2.2 (by decide)⟩

/-! ## C8: POSIX path resolution -/

/-- C8: `posixResolve` of an absolute path ignores the base entirely and
returns the path normalized; `posixResolve "/a" "./b" = "/a/b"` and
`posixResolve "/a/b" ".." = "/a"`; normalization collapses `.` segments,
pops the previous segment on `..`, drops a leading `..` on an absolute
path instead of escaping root, and collapses repeated `/`. -/
theorem C8_posix_resolution (base base2 p : JStr) :
    (p.head? = some '/' →
      posixResolve base p = normalizePosixPath p
      ∧ posixResolve base p = posixResolve base2 p)
    ∧ posixResolve ("/a".toList) ("./b".toList) = ("/a/b".toList)
    ∧ posixResolve ("/a/b".toList) ("..".toList) = ("/a".toList)
    ∧ normalizePosixPath ("/a/./b".toList) = ("/a/b".toList)
    ∧ normalizePosixPath ("/a/x/../b".toList) = ("/a/b".toList)
    ∧ normalizePosixPath ("/../a".toList) = ("/a".toList)
    ∧ normalizePosixPath ("/a//b".toList) = ("/a/b".toList) := by
  refine ⟨fun h => ⟨by rw [posixResolve, if_pos h], by rw [posixResolve, if_pos h, posixResolve, if_pos h]⟩,
    ?_, ?_, ?_, ?_, ?_, ?_⟩ <;> decide

/-- Witness for C8: an absolute input path yields the same result under
two different bases, ignoring both. -/
theorem C8_posix_resolution_witness :
    posixResolve ("/w1".toList) ("/other/f".toList)
      = normalizePosixPath ("/other/f".toList)
    ∧ posixResolve ("/w1".toList) ("/other/f".toList)
      = posixResolve ("/w2".toList) ("/other/f".toList) :=
  (C8_posix_resolution ("/w1".toList) ("/w2".toList) ("/other/f".toList)).1 (by decide)

/-! ## C9: remote-VM adapter readFile -/

/-- C9: the remote-VM sandbox adapter's `readFile` raises the typed
`File not found: <path>` error when the backend returns a null stream —
never an `ok` result (in particular never an empty string) — and a
successful read returns the fully drained stream content. -/
theorem C9_readFile_null_stream (backendRead : JStr → Option (List JStr)) (filePath : JStr) :
    (backendRead filePath = none →
      wrapVercelReadFile backendRead filePath
          = .error (("File not found: ".toList) ++ filePath)
        ∧ ∀ s, wrapVercelReadFile backendRead filePath ≠ Except.ok s)
    ∧ (∀ chunks, backendRead filePath = some chunks →
        wrapVercelReadFile backendRead filePath = .ok chunks.flatten) := by
  constructor
  · intro h
    refine ⟨by simp [wrapVercelReadFile, h], fun s hc => ?_⟩
    simp [wrapVercelReadFile, h] at hc
  · intro chunks h
    simp [wrapVercelReadFile, h, streamToString]

/-- Witness for C9: a backend with one missing and one present file. -/
theorem C9_readFile_null_stream_witness :
    wrapVercelReadFile
        (fun p => if p = ("gone".toList) then none else some [("ab".toList), ("c".toList)])
        ("gone".toList)
      = .error (("File not found: gone".toList))
    ∧ wrapVercelReadFile
        (fun p => if p = ("gone".toList) then none else some [("ab".toList), ("c".toList)])
        ("here".toList)
      = .ok ("abc".toList) :=
  ⟨((C9_readFile_null_stream _ ("gone".toList)).1 (by decide)).1,
   (C9_readFile_null_stream _ ("here".toList)).2 [("ab".toList), ("c".toList)] (by decide)⟩

/-! ## C10: just-bash adapter UTF-8 conversion -/

/-- C10: the virtual (just-bash) adapter's `writeFiles` stores, for a
Buffer payload, the UTF-8 decoding of the input bytes (strings pass
through as text), so binary payloads that are not valid UTF-8 are not
preserved byte-for-byte — witnessed by the byte `0xFF`, which decodes to
U+FFFD and re-encodes differently — unlike the remote-VM adapter, whose
`writeFiles` passes Buffers through unchanged. -/
theorem C10_utf8_write_conversion (b : List Nat) (s : JStr)
    (files : List (JStr × ContentV)) :
    justBashWriteContent (.buf b) = utf8Decode b
    ∧ justBashWriteContent (.str s) = s
    ∧ justBashWriteFiles files
        = files.map (fun f => (f.1, justBashWriteContent f.2))
    ∧ vercelWriteContent (.buf b) = b
    ∧ vercelWriteContent (.str s) = utf8Encode s
    ∧ utf8Decode [255] = [repChar]
    ∧ utf8Encode (utf8Decode [255]) ≠ [255] :=
  ⟨rfl, rfl, rfl, rfl, rfl, by decide, by decide⟩

/-! ## C5 and C6: upload limit and batching (spec-modelled) -/

/-- C5 (spec-modelled): whenever the number of files exceeds a nonzero
`maxFiles`, the upload phase fails with an error naming the actual count,
the limit and remediation guidance, and produces no write batches at all;
`maxFiles = 0` disables the check; the default limit is 1000. -/
theorem C5_maxFiles_limit (files : List (JStr × JStr)) (maxFiles : Nat) :
    (maxFiles ≠ 0 → files.length > maxFiles →
      uploadPlan files maxFiles
          = .error (("Too many files to upload: ".toList)
              ++ natToStrChars files.length
              ++ (" files exceeds the limit of ".toList) ++ natToStrChars maxFiles
              ++ (". Either increase maxFiles, use a more restrictive include pattern, or upload the files yourself using your own sandbox.".toList))
        ∧ ∀ batches, uploadPlan files maxFiles ≠ Except.ok batches)
    ∧ uploadPlan files 0 = .ok (toBatches20 files)
    ∧ defaultMaxFiles = 1000 := by
  refine ⟨fun h1 h2 => ⟨?_, ?_⟩, ?_, rfl⟩
  · rw [uploadPlan, if_pos ⟨h1, h2⟩]
  · intro batches hc
    rw [uploadPlan, if_pos ⟨h1, h2⟩] at hc
    exact Except.noConfusion hc
  · rw [uploadPlan, if_neg (by simp)]

/-- Witness for C5: 11 files against limit 10 produce no write batches;
limit 0 accepts the same 11 files. -/
theorem C5_maxFiles_limit_witness :
    (∀ batches, uploadPlan (List.replicate 11 (([], []) : JStr × JStr)) 10
        ≠ Except.ok batches)
    ∧ uploadPlan (List.replicate 11 (([], []) : JStr × JStr)) 0
        = .ok (toBatches20 (List.replicate 11 (([], []) : JStr × JStr))) :=
  ⟨((C5_maxFiles_limit (List.replicate 11 (([], []) : JStr × JStr)) 10).1
      (by decide) (by decide)).2,
   (C5_maxFiles_limit (List.replicate 11 (([], []) : JStr × JStr)) 0).2.1⟩

theorem isEmpty_false_of_ne_nil {α : Type} {xs : List α} (h : xs ≠ []) :
    xs.isEmpty = false := by
  cases xs with
  | nil => exact absurd rfl h
  | cons a l => rfl

theorem toBatchesAux_nil {α : Type} (fuel : Nat) :
    toBatchesAux fuel ([] : List α) = [] := by
  cases fuel <;> rfl

theorem toBatchesAux_step {α : Type} (fuel : Nat) (xs : List α) (h : xs ≠ []) :
    toBatchesAux (fuel + 1) xs = xs.take 20 :: toBatchesAux fuel (xs.drop 20) := by
  simp [toBatchesAux, isEmpty_false_of_ne_nil h]

theorem toBatchesAux_flatten {α : Type} (fuel : Nat) (xs : List α)
    (h : xs.length ≤ fuel) : (toBatchesAux fuel xs).flatten = xs := by
  induction fuel generalizing xs with
  | zero =>
    have hx : xs = [] := List.length_eq_zero.mp (Nat.le_zero.mp h)
    subst hx
    simp [toBatchesAux_nil]
  | succ fuel ih =>
    by_cases hx : xs = []
    · subst hx
      simp [toBatchesAux_nil]
    · rw [toBatchesAux_step fuel xs hx, List.flatten_cons, ih _ ?_,
          List.take_append_drop]
      have := List.length_pos.mpr hx
      simp only [List.length_drop]
      omega

/-- C6 (spec-modelled): uploading 45 files issues exactly 3 `writeFiles`
batches of sizes 20, 20 and 5, in that order, and concatenating the
batches in order restores the ingestion sequence (ordering and precedence
are preserved); the default limit 1000 does not interfere. -/
theorem C6_write_batching (files : List (JStr × JStr)) (h : files.length = 45) :
    uploadPlan files defaultMaxFiles = .ok (toBatches20 files)
    ∧ (toBatches20 files).length = 3
    ∧ (toBatches20 files).map List.length = [20, 20, 5]
    ∧ (toBatches20 files).flatten = files := by
  have h1 : files ≠ [] := by
    intro hc
    rw [hc] at h
    simp at h
  have hd1 : (files.drop 20).length = 25 := by
    simp [List.length_drop, h]
  have h2 : files.drop 20 ≠ [] := by
    intro hc
    rw [hc] at hd1
    simp at hd1
  have hd2 : ((files.drop 20).drop 20).length = 5 := by
    simp [List.length_drop, h]
  have h3 : (files.drop 20).drop 20 ≠ [] := by
    intro hc
    rw [hc] at hd2
    simp at hd2
  have hd3 : (((files.drop 20).drop 20).drop 20) = [] := by
    rw [← List.length_eq_zero]
    simp [List.length_drop, h]
  have hb : toBatches20 files
      = [files.take 20, (files.drop 20).take 20, (files.drop 20).drop 20] := by
    rw [toBatches20, h]
    rw [show (45 : Nat) = 44 + 1 from rfl, toBatchesAux_step 44 files h1]
    rw [show (44 : Nat) = 43 + 1 from rfl, toBatchesAux_step 43 _ h2]
    rw [show (43 : Nat) = 42 + 1 from rfl, toBatchesAux_step 42 _ h3]
    rw [hd3, toBatchesAux_nil]
    have htk : ((files.drop 20).drop 20).take 20 = (files.drop 20).drop 20 :=
      List.take_of_length_le (by omega)
    rw [htk]
  refine ⟨by rw [uploadPlan, if_neg (by simp [defaultMaxFiles, h])], ?_, ?_, ?_⟩
  · rw [hb]
    rfl
  · rw [hb]
    simp only [List.map_cons, List.map_nil, List.length_take, List.length_drop, h]
    decide
  · rw [toBatches20, h]
    exact toBatchesAux_flatten 45 files (by omega)

/-- Witness for C6 at a concrete 45-file list. -/
theorem C6_write_batching_witness :
    (toBatches20 (List.replicate 45 (([], []) : JStr × JStr))).map List.length
      = [20, 20, 5] :=
  (C6_write_batching (List.replicate 45 (([], []) : JStr × JStr)) (by decide)).2.2.1

/-! ## C2 and C4: ingestion precedence and path consistency -/

theorem filter_key_nil {l : List (JStr × JStr)} {p : JStr}
    (h : p ∉ l.map Prod.fst) :
    l.filter (fun e => e.1 = p) = [] := by
  rw [List.filter_eq_nil_iff]
  intro a ha
  simp only [decide_eq_true_eq]
  intro hfst
  exact h (List.mem_map.mpr ⟨a, ha, hfst⟩)

theorem filter_key_single {l : List (JStr × JStr)} {p c : JStr}
    (hnd : (l.map Prod.fst).Nodup) (hmem : (p, c) ∈ l) :
    l.filter (fun e => e.1 = p) = [(p, c)] := by
  induction l with
  | nil => cases hmem
  | cons hd tl ih =>
    rw [List.map_cons, List.nodup_cons] at hnd
    rcases List.mem_cons.mp hmem with heq | htl
    · rw [← heq]
      rw [← heq] at hnd
      rw [List.filter_cons_of_pos (by simp)]
      rw [filter_key_nil hnd.1]
    · have hne : hd.1 ≠ p := by
        intro hc
        exact hnd.1 (hc ▸ List.mem_map.mpr ⟨(p, c), htl, rfl⟩)
      rw [List.filter_cons_of_neg (by simp [hne]), ih hnd.2 htl]

/-- C2: when the inline file map and the directory scan both contain a
relative path `p`, `streamFiles` yields exactly one entry for `p` and its
content is the inline content (the filtered yield sequence at `p` is the
single inline pair), while every directory file whose path is not in the
inline map is still yielded. -/
theorem C2_inline_overrides_directory (inlineFiles dirFiles : List (JStr × JStr))
    (p c : JStr)
    (hnd : (inlineFiles.map Prod.fst).Nodup)
    (hin : (p, c) ∈ inlineFiles)
    (_hdir : p ∈ dirFiles.map Prod.fst) :
    (streamFilesModel inlineFiles dirFiles).filter (fun e => e.1 = p) = [(p, c)]
    ∧ ∀ q d, (q, d) ∈ dirFiles → q ∉ inlineFiles.map Prod.fst →
        (q, d) ∈ streamFilesModel inlineFiles dirFiles := by
  constructor
  · rw [streamFilesModel, List.filter_append, filter_key_single hnd hin]
    have hnil :
        (dirFiles.filter (fun e => ! inlineFiles.any (fun i => i.1 = e.1))).filter
          (fun e => e.1 = p) = [] := by
      rw [List.filter_eq_nil_iff]
      intro a ha
      simp only [decide_eq_true_eq]
      intro hfst
      have hpred := (List.mem_filter.mp ha).2
      rw [hfst] at hpred
      have : inlineFiles.any (fun i => i.1 = p) = true :=
        List.any_eq_true.mpr ⟨(p, c), hin, by simp⟩
      rw [this] at hpred
      cases hpred
    rw [hnil, List.append_nil]
  · intro q d hqd hnin
    refine List.mem_append_right _ (List.mem_filter.mpr ⟨hqd, ?_⟩)
    simp only [Bool.not_eq_true', List.any_eq_false]
    intro i hi
    simp only [decide_eq_true_eq]
    intro hc
    exact hnin (List.mem_map.mpr ⟨i, hi, hc⟩)

/-- Witness for C2 at a concrete option set: the path `a` appears inline
(content `1`) and on disk (content `2`); the stream yields inline content
once for `a` and still yields the unshadowed directory file `b`. -/
theorem C2_inline_overrides_directory_witness :
    (streamFilesModel [(['a'], ['1'])] [(['a'], ['2']), (['b'], ['3'])]).filter
        (fun e => e.1 = ['a']) = [(['a'], ['1'])]
    ∧ (['b'], ['3']) ∈ streamFilesModel [(['a'], ['1'])] [(['a'], ['2']), (['b'], ['3'])] :=
  ⟨(C2_inline_overrides_directory [(['a'], ['1'])] [(['a'], ['2']), (['b'], ['3'])]
      ['a'] ['1'] (by decide) (by decide) (by decide)).1,
   (C2_inline_overrides_directory [(['a'], ['1'])] [(['a'], ['2']), (['b'], ['3'])]
      ['a'] ['1'] (by decide) (by decide) (by decide)).2 ['b'] ['3']
      (by decide) (by decide)⟩

theorem mem_foldl_dedup (p : JStr) (ks : List JStr) (acc : List JStr) :
    p ∈ ks.foldl (fun acc k => if k ∈ acc then acc else acc ++ [k]) acc
      ↔ p ∈ acc ∨ p ∈ ks := by
  induction ks generalizing acc with
  | nil => simp
  | cons k ks ih =>
    simp only [List.foldl_cons]
    rw [ih]
    by_cases hk : k ∈ acc
    · rw [if_pos hk]
      simp only [List.mem_cons]
      constructor
      · rintro (h | h)
        · exact Or.inl h
        · exact Or.inr (Or.inr h)
      · rintro (h | h | h)
        · exact Or.inl h
        · exact Or.inl (h ▸ hk)
        · exact Or.inr h
    · rw [if_neg hk]
      simp only [List.mem_append, List.mem_singleton, List.mem_cons]
      tauto

/-- C4: for every ingestion options value, the path list produced by
`getFilePaths` and the paths of the entries yielded by `streamFiles`
contain exactly the same paths (the same precedence-resolved final path
set). -/
theorem C4_paths_match_stream (inlineFiles dirFiles : List (JStr × JStr)) (p : JStr) :
    p ∈ getFilePathsModel inlineFiles dirFiles
      ↔ p ∈ (streamFilesModel inlineFiles dirFiles).map Prod.fst := by
  rw [getFilePathsModel, mem_foldl_dedup, streamFilesModel]
  simp only [List.map_append, List.mem_append, List.mem_map, List.mem_filter]
  constructor
  · rintro (⟨e, he, hfst⟩ | ⟨e, he, hfst⟩)
    · by_cases hin : p ∈ inlineFiles.map Prod.fst
      · rcases List.mem_map.mp hin with ⟨i, hi, hifst⟩
        exact Or.inl ⟨i, hi, hifst⟩
      · refine Or.inr ⟨e, ⟨he, ?_⟩, hfst⟩
        simp only [Bool.not_eq_true', List.any_eq_false]
        intro i hi
        simp only [decide_eq_true_eq]
        intro hc
        exact hin (List.mem_map.mpr ⟨i, hi, hfst ▸ hc⟩)
    · exact Or.inl ⟨e, he, hfst⟩
  · rintro (⟨e, he, hfst⟩ | ⟨e, ⟨he, _⟩, hfst⟩)
    · exact Or.inr ⟨e, he, hfst⟩
    · exact Or.inl ⟨e, he, hfst⟩

/-! ## C3: invocation-log codec round trip -/

theorem natDigitsRev_eq_digits (fuel n : Nat) (h : n ≤ fuel) :
    natDigitsRev fuel n = Nat.digits 10 n := by
  induction fuel generalizing n with
  | zero =>
    have h0 : n = 0 := by omega
    subst h0
    simp [natDigitsRev]
  | succ fuel ih =>
    by_cases h0 : n = 0
    · subst h0
      simp [natDigitsRev]
    · have hdiv : n / 10 < n := Nat.div_lt_self (Nat.pos_of_ne_zero h0) (by norm_num)
      rw [natDigitsRev, if_neg h0, ih (n / 10) (by omega),
          Nat.digits_def' (by norm_num : (1 : Nat) < 10) (Nat.pos_of_ne_zero h0)]

theorem digitChar_isDigit {d : Nat} (h : d < 10) :
    (Nat.digitChar d).isDigit = true := by
  interval_cases d <;> decide

theorem charToDigit_digitChar {d : Nat} (h : d < 10) :
    charToDigit (Nat.digitChar d) = d := by
  interval_cases d <;> decide

theorem natToStrChars_all_digit (n : Nat) :
    ∀ c ∈ natToStrChars n, c.isDigit = true := by
  intro c hc
  rw [natToStrChars] at hc
  by_cases h0 : n = 0
  · rw [if_pos h0] at hc
    simp only [List.mem_singleton] at hc
    subst hc
    decide
  · rw [if_neg h0, natDigitsRev_eq_digits n n (le_refl n)] at hc
    rw [List.mem_reverse] at hc
    rcases List.mem_map.mp hc with ⟨d, hd, rfl⟩
    exact digitChar_isDigit (Nat.digits_lt_base (by norm_num) hd)

theorem foldl_digits_reverse (ds : List Nat) (hds : ∀ d ∈ ds, d < 10) (a : Nat) :
    ((ds.map Nat.digitChar).reverse).foldl (fun x c => 10 * x + charToDigit c) a
      = Nat.ofDigits 10 ds + a * 10 ^ ds.length := by
  induction ds generalizing a with
  | nil => simp [Nat.ofDigits]
  | cons d ds ih =>
    simp only [List.map_cons, List.reverse_cons, List.foldl_append,
      List.foldl_cons, List.foldl_nil]
    rw [ih (fun x hx => hds x (by simp [hx])) a,
        charToDigit_digitChar (hds d (by simp)), Nat.ofDigits_cons,
        List.length_cons, pow_succ]
    ring

theorem natToStrChars_ne_nil (n : Nat) : natToStrChars n ≠ [] := by
  rw [natToStrChars]
  by_cases h0 : n = 0
  · simp [h0]
  · rw [if_neg h0, natDigitsRev_eq_digits n n (le_refl n)]
    simp [Nat.digits_ne_nil_iff_ne_zero.mpr h0]

theorem takeWhile_all {p : Char → Bool} {l : JStr} (h : ∀ c ∈ l, p c = true) :
    l.takeWhile p = l := by
  induction l with
  | nil => rfl
  | cons c t ih =>
    simp only [List.takeWhile_cons, h c (by simp), if_true]
    rw [ih (fun x hx => h x (by simp [hx]))]

theorem parseLeadingNat_print (n : Nat) : parseLeadingNat (natToStrChars n) = some n := by
  by_cases h0 : n = 0
  · subst h0
    decide
  · simp only [parseLeadingNat, takeWhile_all (natToStrChars_all_digit n)]
    rw [if_neg (natToStrChars_ne_nil n)]
    congr 1
    conv_lhs => rw [natToStrChars, if_neg h0, natDigitsRev_eq_digits n n (le_refl n)]
    rw [foldl_digits_reverse _ (fun d hd => Nat.digits_lt_base (by norm_num) hd) 0]
    simp [Nat.ofDigits_digits]

theorem digit_pred_facts {c : Char} (h : c.isDigit = true) :
    c ≠ ' ' ∧ c ≠ '\t' ∧ c ≠ '\n' ∧ c ≠ '\r' ∧ c ≠ '-' ∧ c ≠ '+' := by
  refine ⟨?_, ?_, ?_, ?_, ?_, ?_⟩ <;>
    (intro hc; subst hc; exact absurd h (by decide))

theorem parseIntJS_digits (c : Char) (t : JStr) (hdig : c.isDigit = true) :
    parseIntJS (c :: t) = (parseLeadingNat (c :: t)).map (fun m => (m : Int)) := by
  have hf := digit_pred_facts hdig
  simp only [parseIntJS]
  rw [List.dropWhile_cons,
      if_neg (by simp [hf.1, hf.2.1, hf.2.2.1, hf.2.2.2.1])]
  show (if c = '-' then (parseLeadingNat t).map (fun m => -(m : Int))
        else if c = '+' then (parseLeadingNat t).map (fun m => (m : Int))
        else (parseLeadingNat (c :: t)).map (fun m => (m : Int)))
      = (parseLeadingNat (c :: t)).map (fun m => (m : Int))
  rw [if_neg hf.2.2.2.2.1, if_neg hf.2.2.2.2.2]

theorem parseIntJS_print (n : Int) : parseIntJS (intToStr n) = some n := by
  by_cases hneg : n < 0
  · rw [intToStr, if_pos hneg]
    show ((parseLeadingNat (natToStrChars n.natAbs)).map (fun m => -(m : Int)))
        = some n
    rw [parseLeadingNat_print]
    show some (-((n.natAbs : Nat) : Int)) = some n
    congr 1
    omega
  · rw [intToStr, if_neg hneg]
    have hne := natToStrChars_ne_nil n.toNat
    obtain ⟨c, t, hct⟩ : ∃ c t, natToStrChars n.toNat = c :: t := by
      cases hx : natToStrChars n.toNat with
      | nil => exact absurd hx hne
      | cons c t => exact ⟨c, t, rfl⟩
    have hdig : c.isDigit = true :=
      natToStrChars_all_digit n.toNat c (by rw [hct]; simp)
    rw [hct, parseIntJS_digits c t hdig, ← hct, parseLeadingNat_print]
    show some ((n.toNat : Int)) = some n
    congr 1
    omega

theorem hash_ne_mStdout (rest : JStr) : ('#' :: rest) ≠ mStdout := by
  intro he
  rw [show mStdout = '-' :: ("--STDOUT---".toList) from rfl] at he
  injection he with h1 _
  exact absurd h1 (by decide)

theorem hash_ne_mStderr (rest : JStr) : ('#' :: rest) ≠ mStderr := by
  intro he
  rw [show mStderr = '-' :: ("--STDERR---".toList) from rfl] at he
  injection he with h1 _
  exact absurd h1 (by decide)

theorem all_dot_no_nl {s : JStr} (h : s.all isDotChar = true) :
    ∀ c ∈ s, c ≠ '\n' := by
  intro c hc hceq
  have hd := List.all_eq_true.mp h c hc
  subst hceq
  exact absurd hd (by decide)

theorem no_nl_append {a b : JStr} (ha : ∀ c ∈ a, c ≠ '\n')
    (hb : ∀ c ∈ b, c ≠ '\n') : ∀ c ∈ a ++ b, c ≠ '\n' := by
  intro c hc
  rcases List.mem_append.mp hc with h | h
  exacts [ha c h, hb c h]

theorem isDigit_isDotChar {c : Char} (h : c.isDigit = true) : isDotChar c = true := by
  have h1 : c ≠ '\n' := fun hc => absurd (hc ▸ h) (by decide)
  have h2 : c ≠ '\r' := fun hc => absurd (hc ▸ h) (by decide)
  have h3 : c ≠ Char.ofNat 0x2028 := fun hc => absurd (hc ▸ h) (by decide)
  have h4 : c ≠ Char.ofNat 0x2029 := fun hc => absurd (hc ▸ h) (by decide)
  simp [isDotChar, h1, h2, h3, h4]

theorem intToStr_all_dot (n : Int) : (intToStr n).all isDotChar = true := by
  rw [List.all_eq_true]
  intro c hc
  rw [intToStr] at hc
  by_cases hneg : n < 0
  · rw [if_pos hneg] at hc
    rcases List.mem_cons.mp hc with h | h
    · subst h
      decide
    · exact isDigit_isDotChar (natToStrChars_all_digit _ _ h)
  · rw [if_neg hneg] at hc
    exact isDigit_isDotChar (natToStrChars_all_digit _ _ hc)

theorem intToStr_no_nl (n : Int) : ∀ c ∈ intToStr n, c ≠ '\n' :=
  all_dot_no_nl (intToStr_all_dot n)

theorem takeWhile_append_stop {p : Char → Bool} {a : JStr} {x : Char} {b : JStr}
    (ha : ∀ c ∈ a, p c = true) (hx : p x = false) :
    (a ++ x :: b).takeWhile p = a := by
  induction a with
  | nil => simp [List.takeWhile_cons, hx]
  | cons c t ih =>
    rw [List.cons_append]
    simp only [List.takeWhile_cons, ha c (by simp), if_true]
    rw [ih (fun y hy => ha y (by simp [hy]))]

theorem matchHeader_build (key value : JStr) (hne : key ≠ [])
    (hkey : ∀ c ∈ key, isWordChar c = true) (hval : value.all isDotChar = true) :
    matchHeader ('#' :: ' ' :: (key ++ ':' :: ' ' :: value)) = some (key, value) := by
  simp only [matchHeader]
  rw [takeWhile_append_stop hkey (by decide), List.drop_left]
  show (if key ≠ [] ∧ value.all isDotChar then some (key, value) else none)
      = some (key, value)
  rw [if_pos ⟨hne, hval⟩]

theorem parseLine_header (acc : ParseAcc) (key value : JStr) (hsect : acc.sect = 0)
    (hne : key ≠ []) (hkey : ∀ c ∈ key, isWordChar c = true)
    (hval : value.all isDotChar = true) :
    parseLine acc ('#' :: ' ' :: (key ++ ':' :: ' ' :: value))
      = { acc with log := applyHeader acc.log key value } := by
  rw [parseLine, if_neg (hash_ne_mStdout _), if_neg (hash_ne_mStderr _),
      if_pos hsect, matchHeader_build key value hne hkey hval]

theorem parseLine_mStdout (acc : ParseAcc) :
    parseLine acc mStdout = { acc with sect := 1, hasStdout := true } := by
  rw [parseLine, if_pos rfl]

theorem parseLine_mStderr (acc : ParseAcc) :
    parseLine acc mStderr = { acc with sect := 2, hasStderr := true } := by
  rw [parseLine, if_neg (by decide), if_pos rfl]

theorem applyHeader_timestamp (lg : InvocationLog) (v : JStr) :
    applyHeader lg ("timestamp".toList) v = { lg with timestamp := v } := by
  rw [applyHeader, if_pos rfl]

theorem applyHeader_command (lg : InvocationLog) (v : JStr) :
    applyHeader lg ("command".toList) v = { lg with command := v } := by
  rw [applyHeader, if_neg (by decide), if_pos rfl]

theorem applyHeader_exitCode (lg : InvocationLog) (v : JStr) :
    applyHeader lg ("exitCode".toList) v
      = { lg with exitCode := (parseIntJS v).getD 0 } := by
  rw [applyHeader, if_neg (by decide), if_neg (by decide), if_pos rfl]

theorem applyHeader_outputFilter (lg : InvocationLog) (v : JStr) :
    applyHeader lg ("outputFilter".toList) v
      = { lg with outputFilter := some v } := by
  rw [applyHeader, if_neg (by decide), if_neg (by decide), if_neg (by decide),
      if_pos rfl]

theorem foldl_parseLine_stdout (ls : List JStr) (acc : ParseAcc) (hs : acc.sect = 1)
    (h : ∀ l ∈ ls, l ≠ mStdout ∧ l ≠ mStderr) :
    ls.foldl parseLine acc = { acc with stdoutLines := acc.stdoutLines ++ ls } := by
  induction ls generalizing acc with
  | nil => simp
  | cons l ls ih =>
    have h1 := h l (by simp)
    rw [List.foldl_cons,
        show parseLine acc l = { acc with stdoutLines := acc.stdoutLines ++ [l] } by
          rw [parseLine, if_neg h1.1, if_neg h1.2, if_neg (by simp [hs]), if_pos hs],
        ih { acc with stdoutLines := acc.stdoutLines ++ [l] } hs
          (fun x hx => h x (by simp [hx]))]
    simp

theorem foldl_parseLine_stderr (ls : List JStr) (acc : ParseAcc) (hs : acc.sect = 2)
    (h : ∀ l ∈ ls, l ≠ mStdout ∧ l ≠ mStderr) :
    ls.foldl parseLine acc = { acc with stderrLines := acc.stderrLines ++ ls } := by
  induction ls generalizing acc with
  | nil => simp
  | cons l ls ih =>
    have h1 := h l (by simp)
    rw [List.foldl_cons,
        show parseLine acc l = { acc with stderrLines := acc.stderrLines ++ [l] } by
          rw [parseLine, if_neg h1.1, if_neg h1.2, if_neg (by simp [hs]),
              if_neg (by simp [hs])],
        ih { acc with stderrLines := acc.stderrLines ++ [l] } hs
          (fun x hx => h x (by simp [hx]))]
    simp

theorem splitNl_joinNl_peel (l : JStr) (rest : List JStr)
    (hl : ∀ c ∈ l, c ≠ '\n') (hr : rest ≠ []) :
    splitNl (joinNl (l :: rest)) = l :: splitNl (joinNl rest) := by
  rw [joinNl, joinChar_cons_of_ne_nil _ _ _ hr]
  show splitOnChar '\n' (l ++ '\n' :: joinChar '\n' rest) = _
  rw [splitOnChar_append_sep, splitOnChar_eq_single _ _ hl]
  rfl

theorem splitNl_joinNl_three (a m b : JStr) (hm : ∀ c ∈ m, c ≠ '\n') :
    splitNl (joinNl [a, m, b]) = splitNl a ++ m :: splitNl b := by
  show splitOnChar '\n' (a ++ '\n' :: (m ++ '\n' :: b)) = _
  rw [splitOnChar_append_sep, splitOnChar_append_sep,
      splitOnChar_eq_single _ _ hm]
  rfl

theorem joinNl_splitNl (s : JStr) : joinNl (splitNl s) = s :=
  joinChar_splitOnChar '\n' s

/-- Counterexample to C3 as stated: this log's stdout and stderr are
empty, so they contain neither marker line, yet the round trip fails
because the command contains a newline — the formatter emits the command
on a single header line and the parser recovers only its first line. -/
theorem C3_roundtrip_counterexample :
    (∀ l ∈ splitNl (InvocationLog.stdout ⟨[], ['a', '\n', 'b'], 0, [], [], none⟩),
        l ≠ mStdout ∧ l ≠ mStderr)
    ∧ (∀ l ∈ splitNl (InvocationLog.stderr ⟨[], ['a', '\n', 'b'], 0, [], [], none⟩),
        l ≠ mStdout ∧ l ≠ mStderr)
    ∧ parseInvocationLog (formatInvocationLog ⟨[], ['a', '\n', 'b'], 0, [], [], none⟩)
        ≠ some ⟨[], ['a', '\n', 'b'], 0, [], [], none⟩ := by
  decide

/-- C3 (amended): `parseInvocationLog (formatInvocationLog x) = some x`
holds provided that — in addition to stdout and stderr containing no
line equal to a marker — the single-line header fields are line-safe:
timestamp, command and (when present) the output filter contain no
line-terminator character, and the output filter, when present, is
nonempty (a present-but-empty filter is omitted by the truthiness check
of the formatter). -/
theorem C3_roundtrip_amended (log : InvocationLog)
    (hts : log.timestamp.all isDotChar = true)
    (hcmd : log.command.all isDotChar = true)
    (hfil : ∀ f, log.outputFilter = some f → f ≠ [] ∧ f.all isDotChar = true)
    (hout : ∀ l ∈ splitNl log.stdout, l ≠ mStdout ∧ l ≠ mStderr)
    (herr : ∀ l ∈ splitNl log.stderr, l ≠ mStdout ∧ l ≠ mStderr) :
    parseInvocationLog (formatInvocationLog log) = some log := by
  obtain ⟨ts, cmd, ec, so, se, fil⟩ := log
  have hl1 : ∀ c ∈ ("# timestamp: ".toList) ++ ts, c ≠ '\n' :=
    no_nl_append (by decide) (all_dot_no_nl hts)
  have hl2 : ∀ c ∈ ("# command: ".toList) ++ cmd, c ≠ '\n' :=
    no_nl_append (by decide) (all_dot_no_nl hcmd)
  have hl3 : ∀ c ∈ ("# exitCode: ".toList) ++ intToStr ec, c ≠ '\n' :=
    no_nl_append (by decide) (intToStr_no_nl ec)
  cases fil with
  | none =>
    have hlines : splitNl (formatInvocationLog ⟨ts, cmd, ec, so, se, none⟩)
        = (("# timestamp: ".toList) ++ ts)
          :: (("# command: ".toList) ++ cmd)
          :: (("# exitCode: ".toList) ++ intToStr ec)
          :: mStdout :: (splitNl so ++ mStderr :: splitNl se) := by
      simp only [formatInvocationLog, List.cons_append, List.nil_append]
      rw [splitNl_joinNl_peel _ _ hl1 (by simp),
          splitNl_joinNl_peel _ _ hl2 (by simp),
          splitNl_joinNl_peel _ _ hl3 (by simp),
          splitNl_joinNl_peel _ _ (by decide) (by simp),
          splitNl_joinNl_three so mStderr se (by decide)]
    simp only [parseInvocationLog]
    rw [hlines,
        List.foldl_cons,
        show (("# timestamp: ".toList) ++ ts)
            = '#' :: ' ' :: (("timestamp".toList) ++ ':' :: ' ' :: ts) from rfl,
        parseLine_header _ _ _ rfl (by decide) (by decide) hts,
        applyHeader_timestamp,
        List.foldl_cons,
        show (("# command: ".toList) ++ cmd)
            = '#' :: ' ' :: (("command".toList) ++ ':' :: ' ' :: cmd) from rfl,
        parseLine_header _ _ _ rfl (by decide) (by decide) hcmd,
        applyHeader_command,
        List.foldl_cons,
        show (("# exitCode: ".toList) ++ intToStr ec)
            = '#' :: ' ' :: (("exitCode".toList) ++ ':' :: ' ' :: intToStr ec) from rfl,
        parseLine_header _ _ _ rfl (by decide) (by decide) (intToStr_all_dot ec),
        applyHeader_exitCode,
        List.foldl_cons, parseLine_mStdout,
        List.foldl_append,
        foldl_parseLine_stdout _ _ rfl hout,
        List.foldl_cons, parseLine_mStderr,
        foldl_parseLine_stderr _ _ rfl herr]
    rw [if_pos ⟨rfl, rfl⟩]
    simp only [initAcc, List.nil_append, joinNl_splitNl, parseIntJS_print,
      Option.getD_some]
  | some f =>
    have hf := hfil f rfl
    have hl4 : ∀ c ∈ ("# outputFilter: ".toList) ++ f, c ≠ '\n' :=
      no_nl_append (by decide) (all_dot_no_nl hf.2)
    have hlines : splitNl (formatInvocationLog ⟨ts, cmd, ec, so, se, some f⟩)
        = (("# timestamp: ".toList) ++ ts)
          :: (("# command: ".toList) ++ cmd)
          :: (("# exitCode: ".toList) ++ intToStr ec)
          :: (("# outputFilter: ".toList) ++ f)
          :: mStdout :: (splitNl so ++ mStderr :: splitNl se) := by
      simp only [formatInvocationLog]
      rw [if_neg hf.1]
      simp only [List.cons_append, List.nil_append]
      rw [splitNl_joinNl_peel _ _ hl1 (by simp),
          splitNl_joinNl_peel _ _ hl2 (by simp),
          splitNl_joinNl_peel _ _ hl3 (by simp),
          splitNl_joinNl_peel _ _ hl4 (by simp),
          splitNl_joinNl_peel _ _ (by decide) (by simp),
          splitNl_joinNl_three so mStderr se (by decide)]
    simp only [parseInvocationLog]
    rw [hlines,
        List.foldl_cons,
        show (("# timestamp: ".toList) ++ ts)
            = '#' :: ' ' :: (("timestamp".toList) ++ ':' :: ' ' :: ts) from rfl,
        parseLine_header _ _ _ rfl (by decide) (by decide) hts,
        applyHeader_timestamp,
        List.foldl_cons,
        show (("# command: ".toList) ++ cmd)
            = '#' :: ' ' :: (("command".toList) ++ ':' :: ' ' :: cmd) from rfl,
        parseLine_header _ _ _ rfl (by decide) (by decide) hcmd,
        applyHeader_command,
        List.foldl_cons,
        show (("# exitCode: ".toList) ++ intToStr ec)
            = '#' :: ' ' :: (("exitCode".toList) ++ ':' :: ' ' :: intToStr ec) from rfl,
        parseLine_header _ _ _ rfl (by decide) (by decide) (intToStr_all_dot ec),
        applyHeader_exitCode,
        List.foldl_cons,
        show (("# outputFilter: ".toList) ++ f)
            = '#' :: ' ' :: (("outputFilter".toList) ++ ':' :: ' ' :: f) from rfl,
        parseLine_header _ _ _ rfl (by decide) (by decide) hf.2,
        applyHeader_outputFilter,
        List.foldl_cons, parseLine_mStdout,
        List.foldl_append,
        foldl_parseLine_stdout _ _ rfl hout,
        List.foldl_cons, parseLine_mStderr,
        foldl_parseLine_stderr _ _ rfl herr]
    rw [if_pos ⟨rfl, rfl⟩]
    simp only [initAcc, List.nil_append, joinNl_splitNl, parseIntJS_print,
      Option.getD_some]

/-- Witness for C3 (amended) at a concrete log with a multi-line stdout,
a negative-free exit code, and an output filter. -/
theorem C3_roundtrip_amended_witness :
    parseInvocationLog (formatInvocationLog
        ⟨("2024-01-15T10:30:45.123Z".toList), ("ls -la".toList), 3,
         ("out1\nout2".toList), [], some ("tail -2".toList)⟩)
      = some ⟨("2024-01-15T10:30:45.123Z".toList), ("ls -la".toList), 3,
         ("out1\nout2".toList), [], some ("tail -2".toList)⟩ :=
  C3_roundtrip_amended _ (by decide) (by decide)
    (by intro f hf; injection hf with h; subst h; exact ⟨by decide, by decide⟩)
    (by decide) (by decide)
